import Mathlib

/-!
Verification of the extension layer of a terminal text editor.

The embedding models Python strings as `List Char` (unicode scalars with
positional slicing) and the editor's line buffer as a list of such lines.
Handler functions (`_on_key` in the Python modules) become pure state
transformers on an explicit editor state; the host's cursor/buffer
accessors and the external clipboard sink become fields of that state.
-/

set_option linter.unusedVariables false

/-- A position `(row, col)`, zero-indexed; ordered lexicographically. -/
abbrev Pos := Nat × Nat

/-- One line of text: a Python string as a list of unicode scalars. -/
abbrev Line := List Char

/-- The buffer: an ordered sequence of lines. -/
abbrev Buffer := List Line

/-- Python `s.split(sep)` for a single-character separator. -/
def splitOnChar (sep : Char) : List Char → List (List Char)
  | [] => [[]]
  | c :: cs =>
    if c = sep then [] :: splitOnChar sep cs
    else
      match splitOnChar sep cs with
      | [] => [[c]]
      | s :: rest => (c :: s) :: rest

/-- Python `sep.join(parts)` for a single-character separator. -/
def joinWith (sep : Char) : List (List Char) → List Char
  | [] => []
  | [p] => p
  | p :: rest => p ++ sep :: joinWith sep rest

/-- A buffer position is in bounds: its row exists and its column is at most
the row's length (the column one past the end is a valid cursor position). -/
abbrev posInBounds (lines : Buffer) (p : Pos) : Prop :=
  p.1 < lines.length ∧ p.2 ≤ (lines.getD p.1 []).length

/-- Well-formed buffer: no line contains an embedded newline character
(lines are produced by splitting text on newlines, so this is the
data-model invariant of `BufferLines`). -/
abbrev bufferWF (lines : Buffer) : Prop := ∀ l ∈ lines, Char.ofNat 10 ∉ l

/-- Editor state as seen by the clipboard and selection-delete handlers:
the host-owned buffer, cursor, the `selection.anchor` blackboard entry, and
the external clipboard sink.  Modelled from the spec: the host accessor
contract (get/set cursor, get/replace lines, blackboard get/set) and the
clipboard sink (copy accepts text, paste returns the stored text). -/
structure EdState where
  lines : Buffer
  cursor : Pos
  anchor : Option Pos
  clipboard : Line
  deriving Repr, DecidableEq

namespace Clipboard

def KEY_COPY : Nat := 3
def KEY_PASTE : Nat := 22

/-- `_get_sorted_range`: Python tuple `<=` is the lexicographic order. -/
def get_sorted_range (anchor cursor : Pos) : Nat × Nat × Nat × Nat :=
  if anchor.1 < cursor.1 ∨ (anchor.1 = cursor.1 ∧ anchor.2 ≤ cursor.2) then
    (anchor.1, anchor.2, cursor.1, cursor.2)
  else
    (cursor.1, cursor.2, anchor.1, anchor.2)

/-- `_extract_selected_text`: single-line slice `lines[sr][sc:ec]`, or
first-line tail + full middle lines + last-line head joined by newlines. -/
def extract_selected_text (lines : Buffer) (anchor cursor : Pos) : Line :=
  let r := get_sorted_range anchor cursor
  let sr := r.1
  let sc := r.2.1
  let er := r.2.2.1
  let ec := r.2.2.2
  if sr = er then
    ((lines.getD sr []).take ec).drop sc
  else
    joinWith (Char.ofNat 10)
      ([(lines.getD sr []).drop sc] ++ ((lines.take er).drop (sr + 1))
        ++ [(lines.getD er []).take ec])

/-- `new_lines[-1] = new_lines[-1] + after`: append to the final element.
The handler only applies this to a non-empty list (it always contains the
`before + pasted_lines[0]` entry), so the `[]` case is unreachable. -/
def append_to_last (xs : List Line) (suffix : Line) : List Line :=
  match xs with
  | [] => []
  | [x] => [x ++ suffix]
  | x :: y :: rest => x :: append_to_last (y :: rest) suffix

/-- `_on_key` of the clipboard extension: Ctrl+C copies the selection to the
clipboard sink, Ctrl+V splices the sink's text into the buffer at the
cursor.  Returns (handled, new state). -/
def on_key (key : Nat) (st : EdState) : Bool × EdState :=
  if key = KEY_COPY then
    match st.anchor with
    | none => (false, st)
    | some anchor =>
      if anchor = st.cursor then (false, st)
      else
        (true, { st with
          clipboard := extract_selected_text st.lines anchor st.cursor })
  else if key = KEY_PASTE then
    let text := st.clipboard
    if text = [] then (true, st)
    else
      let row := st.cursor.1
      let col := st.cursor.2
      let current_line := st.lines.getD row []
      let before := current_line.take col
      let after := current_line.drop col
      let pasted_lines := splitOnChar (Char.ofNat 10) text
      let spliced :=
        match pasted_lines with
        | [] => [before]
        | p :: rest => (before ++ p) :: rest
      let new_lines :=
        st.lines.take row ++ append_to_last spliced after
          ++ st.lines.drop (row + 1)
      let end_row := row + pasted_lines.length - 1
      let last_len := (pasted_lines.getLastD []).length
      let end_col := if pasted_lines.length = 1 then last_len + col else last_len
      (true, { st with lines := new_lines, cursor := (end_row, end_col) })
  else
    (false, st)

end Clipboard

namespace SelectionDelete

/-- `BACKSPACE_KEYS`: `curses.KEY_BACKSPACE` (263), 127 and 8. -/
def BACKSPACE_KEYS : List Nat := [263, 127, 8]

/-- `_get_sorted_range` (duplicated in the source module). -/
def get_sorted_range (anchor cursor : Pos) : Nat × Nat × Nat × Nat :=
  if anchor.1 < cursor.1 ∨ (anchor.1 = cursor.1 ∧ anchor.2 ≤ cursor.2) then
    (anchor.1, anchor.2, cursor.1, cursor.2)
  else
    (cursor.1, cursor.2, anchor.1, anchor.2)

/-- `_on_key` of the selection-delete extension: Backspace with an active,
non-empty selection deletes the selected range, places the cursor at the
range start and clears the anchor. -/
def on_key (key : Nat) (st : EdState) : Bool × EdState :=
  if key ∉ BACKSPACE_KEYS then (false, st)
  else
    match st.anchor with
    | none => (false, st)
    | some anchor =>
      if anchor = st.cursor then (false, st)
      else
        let r := get_sorted_range anchor st.cursor
        let sr := r.1
        let sc := r.2.1
        let er := r.2.2.1
        let ec := r.2.2.2
        let text_before_selection := (st.lines.getD sr []).take sc
        let text_after_selection := (st.lines.getD er []).drop ec
        let joined_line := text_before_selection ++ text_after_selection
        let new_lines := st.lines.take sr ++ [joined_line] ++ st.lines.drop (er + 1)
        (true, { st with lines := new_lines, cursor := (sr, sc), anchor := none })

end SelectionDelete

example :
    Clipboard.extract_selected_text ["hello".data, "world".data] (0, 1) (1, 3)
      = "ello\nwor".data := by decide

example :
    SelectionDelete.on_key 8 ⟨["hello".data, "world".data], (1, 3), some (0, 1), []⟩
      = (true, ⟨["hld".data], (0, 1), none, []⟩) := by decide

/-! ### List helper lemmas -/

section ListHelpers

variable {α : Type*}

theorem take_append_self (xs rest : List α) : (xs ++ rest).take xs.length = xs := by
  induction xs with
  | nil => rfl
  | cons a xs ih => simp [ih]

theorem drop_append_self (xs rest : List α) : (xs ++ rest).drop xs.length = rest := by
  induction xs with
  | nil => rfl
  | cons a xs ih => simp [ih]

theorem getD_append_mid (xs : List α) (y : α) (zs : List α) (d : α) :
    (xs ++ y :: zs).getD xs.length d = y := by
  induction xs with
  | nil => rfl
  | cons a xs ih => simpa using ih

theorem drop_append_mid (xs : List α) (y : α) (zs : List α) :
    (xs ++ y :: zs).drop (xs.length + 1) = zs := by
  induction xs with
  | nil => rfl
  | cons a xs ih => simp [ih]

theorem take_getD_drop (l : List α) (n : Nat) (h : n < l.length) (d : α) :
    l.take n ++ l.getD n d :: l.drop (n + 1) = l := by
  induction l generalizing n with
  | nil => simp at h
  | cons a l ih =>
    cases n with
    | zero => rfl
    | succ n => simpa using ih n (by simpa using h)

theorem take_take_of_le (l : List α) (n m : Nat) (h : n ≤ m) :
    (l.take m).take n = l.take n := by
  induction l generalizing n m with
  | nil => simp
  | cons a l ih =>
    cases n with
    | zero => simp
    | succ n =>
      cases m with
      | zero => omega
      | succ m => simpa using ih n m (by omega)

theorem length_take_of_le (l : List α) (n : Nat) (h : n ≤ l.length) :
    (l.take n).length = n := by
  simp [Nat.min_eq_left h]

theorem take_slice_drop (l : List α) (sc ec : Nat) (h : sc ≤ ec) :
    l.take sc ++ ((l.take ec).drop sc ++ l.drop ec) = l := by
  have h1 : l.take sc ++ (l.take ec).drop sc = l.take ec := by
    conv_lhs => rw [← take_take_of_le l sc ec h]
    exact List.take_append_drop sc (l.take ec)
  rw [← List.append_assoc, h1, List.take_append_drop]

theorem take_succ_append (l : List α) (n : Nat) (h : n < l.length) (d : α) :
    l.take (n + 1) = l.take n ++ [l.getD n d] := by
  induction l generalizing n with
  | nil => simp at h
  | cons a l ih =>
    cases n with
    | zero => rfl
    | succ n => simpa using ih n (by simpa using h)

end ListHelpers

/-! ### splitOnChar / joinWith lemmas -/

theorem splitOnChar_ne_nil (sep : Char) (l : List Char) : splitOnChar sep l ≠ [] := by
  cases l with
  | nil => simp [splitOnChar]
  | cons c cs =>
    simp only [splitOnChar]
    split
    · simp
    · split <;> simp

theorem splitOnChar_of_not_mem (sep : Char) (l : List Char) (h : sep ∉ l) :
    splitOnChar sep l = [l] := by
  induction l with
  | nil => rfl
  | cons c cs ih =>
    have hc : ¬c = sep := fun hc => h (hc ▸ List.mem_cons_self c cs)
    have hcs : sep ∉ cs := fun hm => h (List.mem_cons_of_mem c hm)
    simp only [splitOnChar, if_neg hc, ih hcs]

theorem splitOnChar_append (sep : Char) (a b : List Char) (h : sep ∉ a) :
    splitOnChar sep (a ++ sep :: b) = a :: splitOnChar sep b := by
  induction a with
  | nil => simp [splitOnChar]
  | cons c cs ih =>
    have hc : ¬c = sep := fun hc => h (hc ▸ List.mem_cons_self c cs)
    have hcs : sep ∉ cs := fun hm => h (List.mem_cons_of_mem c hm)
    simp only [List.cons_append, splitOnChar, if_neg hc, List.append_eq, ih hcs]

theorem splitOnChar_joinWith (sep : Char) (parts : List (List Char))
    (hne : parts ≠ []) (h : ∀ p ∈ parts, sep ∉ p) :
    splitOnChar sep (joinWith sep parts) = parts := by
  induction parts with
  | nil => exact absurd rfl hne
  | cons p rest ih =>
    cases rest with
    | nil =>
      simpa [joinWith] using splitOnChar_of_not_mem sep p (h p (List.mem_cons_self p []))
    | cons q rest' =>
      have h1 : joinWith sep (p :: q :: rest') = p ++ sep :: joinWith sep (q :: rest') := rfl
      rw [h1, splitOnChar_append sep p _ (h p (List.mem_cons_self _ _))]
      rw [ih (by simp) (fun x hx => h x (List.mem_cons_of_mem p hx))]

theorem joinWith_cons₂ (sep : Char) (p q : List Char) (rest : List (List Char)) :
    joinWith sep (p :: q :: rest) = p ++ sep :: joinWith sep (q :: rest) := rfl

/-! ### append_to_last lemmas -/

theorem append_to_last_single (x : Line) (s : Line) :
    Clipboard.append_to_last [x] s = [x ++ s] := rfl

theorem append_to_last_cons₂ (x y : Line) (rest : List Line) (s : Line) :
    Clipboard.append_to_last (x :: y :: rest) s = x :: Clipboard.append_to_last (y :: rest) s := rfl

theorem append_to_last_concat (xs : List Line) (x s : Line) :
    Clipboard.append_to_last (xs ++ [x]) s = xs ++ [x ++ s] := by
  induction xs with
  | nil => rfl
  | cons a xs ih =>
    cases xs with
    | nil => rfl
    | cons b xs' => simpa [Clipboard.append_to_last] using ih

theorem append_to_last_eq (xs : List Line) (s : Line) (h : xs ≠ []) :
    Clipboard.append_to_last xs s = xs.dropLast ++ [xs.getLastD [] ++ s] := by
  induction xs with
  | nil => exact absurd rfl h
  | cons a xs ih =>
    cases xs with
    | nil => rfl
    | cons b xs' =>
      rw [append_to_last_cons₂, ih (by simp)]
      simp [List.getLastD]

/-! ### Sorted range lemmas -/

theorem sd_range_eq : SelectionDelete.get_sorted_range = Clipboard.get_sorted_range := rfl

theorem get_sorted_range_spec (a c : Pos) :
    (Clipboard.get_sorted_range a c = (a.1, a.2, c.1, c.2)
      ∧ (a.1 < c.1 ∨ (a.1 = c.1 ∧ a.2 ≤ c.2))) ∨
    (Clipboard.get_sorted_range a c = (c.1, c.2, a.1, a.2)
      ∧ (c.1 < a.1 ∨ (c.1 = a.1 ∧ c.2 ≤ a.2))) := by
  unfold Clipboard.get_sorted_range
  split
  · exact Or.inl ⟨rfl, by assumption⟩
  · next hn => exact Or.inr ⟨rfl, by omega⟩

/-! ### Handler-shape lemmas (shared) -/

theorem copy_eq (st : EdState) (a : Pos) (ha : st.anchor = some a) (hne : a ≠ st.cursor) :
    Clipboard.on_key Clipboard.KEY_COPY st =
      (true, { st with clipboard := Clipboard.extract_selected_text st.lines a st.cursor }) := by
  simp [Clipboard.on_key, ha, hne]

theorem delete_eq (key : Nat) (st : EdState) (a : Pos)
    (hk : key ∈ SelectionDelete.BACKSPACE_KEYS)
    (ha : st.anchor = some a) (hne : a ≠ st.cursor) :
    SelectionDelete.on_key key st =
      (true, { st with
        lines := st.lines.take (SelectionDelete.get_sorted_range a st.cursor).1 ++
          [(st.lines.getD (SelectionDelete.get_sorted_range a st.cursor).1 []).take
              (SelectionDelete.get_sorted_range a st.cursor).2.1 ++
            (st.lines.getD (SelectionDelete.get_sorted_range a st.cursor).2.2.1 []).drop
              (SelectionDelete.get_sorted_range a st.cursor).2.2.2] ++
          st.lines.drop ((SelectionDelete.get_sorted_range a st.cursor).2.2.1 + 1),
        cursor := ((SelectionDelete.get_sorted_range a st.cursor).1,
          (SelectionDelete.get_sorted_range a st.cursor).2.1),
        anchor := none }) := by
  simp [SelectionDelete.on_key, hk, ha, hne]

theorem paste_eq (st : EdState) (p0 : Line) (rest : List Line)
    (hsplit : splitOnChar (Char.ofNat 10) st.clipboard = p0 :: rest)
    (hcb : st.clipboard ≠ []) :
    Clipboard.on_key Clipboard.KEY_PASTE st =
      (true, { st with
        lines := st.lines.take st.cursor.1 ++
          Clipboard.append_to_last
            (((st.lines.getD st.cursor.1 []).take st.cursor.2 ++ p0) :: rest)
            ((st.lines.getD st.cursor.1 []).drop st.cursor.2) ++
          st.lines.drop (st.cursor.1 + 1),
        cursor := (st.cursor.1 + (p0 :: rest).length - 1,
          if (p0 :: rest).length = 1 then ((p0 :: rest).getLastD []).length + st.cursor.2
          else ((p0 :: rest).getLastD []).length) }) := by
  simp [Clipboard.on_key, Clipboard.KEY_PASTE, Clipboard.KEY_COPY, hcb, hsplit]

theorem getLastD_cons₂ {β : Type*} (x y : β) (ys : List β) (d : β) :
    (x :: y :: ys).getLastD d = (y :: ys).getLastD d := by
  simp [List.getLastD]

/-! ### Claim theorems: selection deletion, paste, copy -/

/-- C2: for a backspace-class key with an active anchor `a ≠ cursor`, both in
bounds, the handler produces `lines[:sr] ++ [lines[sr][:sc] ++ lines[er][ec:]]
++ lines[er+1:]` for the normalized range `(sr, sc, er, ec)`, sets the cursor
to `(sr, sc)`, clears the anchor, and reports handled. -/
theorem selection_delete_correct (key : Nat) (st : EdState) (a : Pos)
    (sr sc er ec : Nat)
    (hk : key ∈ SelectionDelete.BACKSPACE_KEYS)
    (ha : st.anchor = some a) (hne : a ≠ st.cursor)
    (hA : posInBounds st.lines a) (hC : posInBounds st.lines st.cursor)
    (hr : SelectionDelete.get_sorted_range a st.cursor = (sr, sc, er, ec)) :
    SelectionDelete.on_key key st =
      (true, { st with
        lines := st.lines.take sr ++
          [(st.lines.getD sr []).take sc ++ (st.lines.getD er []).drop ec] ++
          st.lines.drop (er + 1),
        cursor := (sr, sc),
        anchor := none }) := by
  simpa [hr] using delete_eq key st a hk ha hne

/-- C2 witness: the spec scenario: buffer `["hello", "world"]`, anchor `(0,1)`,
cursor `(1,3)`: extracted text is `"ello\nwor"`, deletion yields `["hld"]`
with cursor `(0,1)`. -/
theorem selection_delete_correct_witness :
    SelectionDelete.on_key 8 ⟨["hello".data, "world".data], (1, 3), some (0, 1), []⟩
      = (true, ⟨["hld".data], (0, 1), none, []⟩) ∧
    Clipboard.extract_selected_text ["hello".data, "world".data] (0, 1) (1, 3)
      = "ello\nwor".data := by
  constructor
  · have h := selection_delete_correct 8
      ⟨["hello".data, "world".data], (1, 3), some (0, 1), []⟩
      (0, 1) 0 1 1 3 (by decide) rfl (by decide) (by decide) (by decide) (by decide)
    rw [h]
    decide
  · decide

/-- C3: pasting non-empty text at an in-bounds cursor `(row, col)` splits the
text into newline-separated segments, splits the row at `col` into before and
after, appends the first segment to before, inserts middle segments as whole
lines, prepends the last segment to after, and puts the cursor at row
`row + segments - 1`, column `col +` length of the single segment when there
is one segment, else the length of the last segment. -/
theorem paste_splice_correct (st : EdState) (p0 : Line) (rest : List Line)
    (hcb : st.clipboard ≠ [])
    (hrow : st.cursor.1 < st.lines.length)
    (hcol : st.cursor.2 ≤ (st.lines.getD st.cursor.1 []).length)
    (hsplit : splitOnChar (Char.ofNat 10) st.clipboard = p0 :: rest) :
    Clipboard.on_key Clipboard.KEY_PASTE st =
      (true, { st with
        lines := st.lines.take st.cursor.1 ++
          (if rest = [] then
            [(st.lines.getD st.cursor.1 []).take st.cursor.2 ++ p0 ++
              (st.lines.getD st.cursor.1 []).drop st.cursor.2]
          else
            ((st.lines.getD st.cursor.1 []).take st.cursor.2 ++ p0) ::
              (rest.dropLast ++
                [rest.getLastD [] ++ (st.lines.getD st.cursor.1 []).drop st.cursor.2])) ++
          st.lines.drop (st.cursor.1 + 1),
        cursor := (st.cursor.1 + rest.length,
          if rest = [] then st.cursor.2 + p0.length
          else (rest.getLastD []).length) }) := by
  rw [paste_eq st p0 rest hsplit hcb]
  cases rest with
  | nil =>
    simp [append_to_last_single, Nat.add_comm]
  | cons q rest' =>
    rw [append_to_last_cons₂, append_to_last_eq _ _ (by simp)]
    simp [getLastD_cons₂, Nat.add_comm]
    omega

/-- C3 witness: the spec scenario: pasting `"a\nb"` at cursor `(0,2)` into
line `"xxyyzz"` yields lines `["xxa", "byyzz"]` with cursor `(1,1)`. -/
theorem paste_splice_correct_witness :
    Clipboard.on_key 22 ⟨["xxyyzz".data], (0, 2), none, "a\nb".data⟩
      = (true, ⟨["xxa".data, "byyzz".data], (1, 1), none, "a\nb".data⟩) := by
  have h := paste_splice_correct ⟨["xxyyzz".data], (0, 2), none, "a\nb".data⟩
    "a".data ["b".data] (by decide) (by decide) (by decide) (by decide)
  rw [show (22 : Nat) = Clipboard.KEY_PASTE from rfl, h]
  decide

/-- C8: with no anchor, or an anchor equal to the cursor, the copy handler and
the selection-delete handler report not handled and leave the state (buffer,
cursor, clipboard) unchanged. -/
theorem empty_selection_not_handled (st : EdState) (key : Nat)
    (h : st.anchor = none ∨ st.anchor = some st.cursor) :
    Clipboard.on_key Clipboard.KEY_COPY st = (false, st) ∧
    (key ∈ SelectionDelete.BACKSPACE_KEYS → SelectionDelete.on_key key st = (false, st)) := by
  rcases h with h | h
  · exact ⟨by simp [Clipboard.on_key, h],
      fun hk => by simp [SelectionDelete.on_key, hk, h]⟩
  · exact ⟨by simp [Clipboard.on_key, h],
      fun hk => by simp [SelectionDelete.on_key, hk, h]⟩

/-- C8 witness: with no anchor, copy (key 3) and backspace (key 8) are both
not handled and leave the state unchanged. -/
theorem empty_selection_not_handled_witness :
    Clipboard.on_key Clipboard.KEY_COPY ⟨["x".data], (0, 0), none, []⟩
      = (false, ⟨["x".data], (0, 0), none, []⟩) ∧
    SelectionDelete.on_key 8 ⟨["x".data], (0, 0), none, []⟩
      = (false, ⟨["x".data], (0, 0), none, []⟩) := by
  have h := empty_selection_not_handled ⟨["x".data], (0, 0), none, []⟩ 8 (Or.inl rfl)
  exact ⟨h.1, h.2 (by decide)⟩

/-- C10: copy with an active non-empty selection reports handled, stores the
extracted text in the clipboard sink, and leaves the buffer, the cursor, and
the published anchor unchanged. -/
theorem copy_readonly (st : EdState) (a : Pos)
    (ha : st.anchor = some a) (hne : a ≠ st.cursor) :
    Clipboard.on_key Clipboard.KEY_COPY st =
      (true, { st with clipboard := Clipboard.extract_selected_text st.lines a st.cursor }) ∧
    (Clipboard.on_key Clipboard.KEY_COPY st).2.lines = st.lines ∧
    (Clipboard.on_key Clipboard.KEY_COPY st).2.cursor = st.cursor ∧
    (Clipboard.on_key Clipboard.KEY_COPY st).2.anchor = st.anchor := by
  have h := copy_eq st a ha hne
  exact ⟨h, by rw [h], by rw [h], by rw [h]⟩

/-- C10 witness: copying the selection `(0,1)`–`(1,3)` of `["hello","world"]`
stores `"ello\nwor"` and changes nothing else. -/
theorem copy_readonly_witness :
    Clipboard.on_key Clipboard.KEY_COPY ⟨["hello".data, "world".data], (1, 3), some (0, 1), []⟩
      = (true, ⟨["hello".data, "world".data], (1, 3), some (0, 1), "ello\nwor".data⟩) := by
  have h := copy_readonly ⟨["hello".data, "world".data], (1, 3), some (0, 1), []⟩
    (0, 1) rfl (by decide)
  rw [h.1]
  decide

/-! ### Indexed forms of the append helpers, and buffer reassembly lemmas -/

section IndexedHelpers

variable {α : Type*}

theorem take_append_at (xs rest : List α) (n : Nat) (h : xs.length = n) :
    (xs ++ rest).take n = xs := by
  subst h; exact take_append_self xs rest

theorem drop_append_at (xs rest : List α) (n : Nat) (h : xs.length = n) :
    (xs ++ rest).drop n = rest := by
  subst h; exact drop_append_self xs rest

theorem getD_append_at (xs : List α) (y : α) (zs : List α) (d : α) (n : Nat)
    (h : xs.length = n) : (xs ++ y :: zs).getD n d = y := by
  subst h; exact getD_append_mid xs y zs d

theorem drop_append_at_succ (xs : List α) (y : α) (zs : List α) (n : Nat)
    (h : xs.length = n) : (xs ++ y :: zs).drop (n + 1) = zs := by
  subst h; exact drop_append_mid xs y zs

theorem getD_mem (l : List α) (n : Nat) (d : α) (h : n < l.length) : l.getD n d ∈ l := by
  induction l generalizing n with
  | nil => simp at h
  | cons a l ih =>
    cases n with
    | zero => exact List.mem_cons_self _ _
    | succ n => exact List.mem_cons_of_mem _ (ih n (by simpa using h))

end IndexedHelpers

/-- Deleting a single-line range `[sc, ec)` of row `sr` and splicing the
extracted slice back at `(sr, sc)` restores the buffer. -/
theorem splice_reassemble_single (lines : Buffer) (sr sc ec : Nat) (l : Line)
    (del : List Line)
    (hl : l = lines.getD sr [])
    (hsr : sr < lines.length)
    (hsc : sc ≤ ec) (hec : ec ≤ l.length)
    (hdel : del = lines.take sr ++ [l.take sc ++ l.drop ec] ++ lines.drop (sr + 1)) :
    del.take sr ++
      Clipboard.append_to_last [((del.getD sr []).take sc ++ (l.take ec).drop sc)]
        ((del.getD sr []).drop sc)
      ++ del.drop (sr + 1) = lines := by
  subst hdel
  have hpre : (lines.take sr).length = sr := length_take_of_le _ _ (le_of_lt hsr)
  have hnorm : lines.take sr ++ [l.take sc ++ l.drop ec] ++ lines.drop (sr + 1)
      = lines.take sr ++ (l.take sc ++ l.drop ec) :: lines.drop (sr + 1) := by
    simp
  rw [hnorm, getD_append_at _ _ _ _ sr hpre, take_append_at _ _ sr hpre,
    drop_append_at_succ _ _ _ sr hpre]
  have hlsc : (l.take sc).length = sc := length_take_of_le _ _ (hsc.trans hec)
  rw [take_append_at _ _ sc hlsc, drop_append_at _ _ sc hlsc, append_to_last_single]
  have hre : l.take sc ++ ((l.take ec).drop sc ++ l.drop ec) = l :=
    take_slice_drop l sc ec hsc
  calc lines.take sr ++ [l.take sc ++ (l.take ec).drop sc ++ l.drop ec]
        ++ lines.drop (sr + 1)
      = lines.take sr ++ (l.take sc ++ ((l.take ec).drop sc ++ l.drop ec))
        :: lines.drop (sr + 1) := by simp
    _ = lines.take sr ++ l :: lines.drop (sr + 1) := by rw [hre]
    _ = lines.take sr ++ lines.getD sr [] :: lines.drop (sr + 1) := by rw [hl]
    _ = lines := take_getD_drop lines sr hsr []

/-- Deleting a multi-line range and splicing the extracted segments back at
`(sr, sc)` restores the buffer. -/
theorem splice_reassemble_multi (lines : Buffer) (sr er sc ec : Nat) (l1 l2 : Line)
    (middle : List Line) (del : List Line)
    (hl1 : l1 = lines.getD sr []) (hl2 : l2 = lines.getD er [])
    (hmid : middle = (lines.take er).drop (sr + 1))
    (hlt : sr < er) (her : er < lines.length)
    (hsc : sc ≤ l1.length)
    (hdel : del = lines.take sr ++ [l1.take sc ++ l2.drop ec] ++ lines.drop (er + 1)) :
    del.take sr ++
      Clipboard.append_to_last
        (((del.getD sr []).take sc ++ l1.drop sc) :: (middle ++ [l2.take ec]))
        ((del.getD sr []).drop sc)
      ++ del.drop (sr + 1) = lines := by
  subst hdel
  have hsr : sr < lines.length := lt_trans hlt her
  have hpre : (lines.take sr).length = sr := length_take_of_le _ _ (le_of_lt hsr)
  have hnorm : lines.take sr ++ [l1.take sc ++ l2.drop ec] ++ lines.drop (er + 1)
      = lines.take sr ++ (l1.take sc ++ l2.drop ec) :: lines.drop (er + 1) := by
    simp
  rw [hnorm, getD_append_at _ _ _ _ sr hpre, take_append_at _ _ sr hpre,
    drop_append_at_succ _ _ _ sr hpre]
  have hlsc : (l1.take sc).length = sc := length_take_of_le _ _ hsc
  rw [take_append_at _ _ sc hlsc, drop_append_at _ _ sc hlsc,
    List.take_append_drop sc l1]
  have hshape : l1 :: (middle ++ [l2.take ec]) = (l1 :: middle) ++ [l2.take ec] := by
    simp
  rw [hshape, append_to_last_concat, List.take_append_drop ec l2]
  have hA : lines.take (sr + 1) = lines.take sr ++ [l1] := by
    rw [take_succ_append lines sr hsr [], hl1]
  have hB : lines.take er = lines.take (sr + 1) ++ middle := by
    conv_lhs => rw [← List.take_append_drop (sr + 1) (lines.take er)]
    rw [take_take_of_le lines (sr + 1) er hlt, hmid]
  have hC : lines.take (er + 1) = lines.take er ++ [l2] := by
    rw [take_succ_append lines er her [], hl2]
  conv_rhs => rw [← List.take_append_drop (er + 1) lines, hC, hB, hA]
  simp

theorem joinWith_cons_ne_nil (sep : Char) (p : List Char) (rest : List (List Char))
    (h : rest ≠ []) : joinWith sep (p :: rest) ≠ [] := by
  cases rest with
  | nil => exact absurd rfl h
  | cons q rest' => rw [joinWith_cons₂]; simp

/-- Copy, then selection-delete, then paste, starting from a sorted range
`(sr, sc, er, ec)` of the anchor and cursor: the buffer is restored. -/
theorem roundtrip_sorted (st : EdState) (a : Pos) (sr sc er ec : Nat)
    (hwf : bufferWF st.lines)
    (ha : st.anchor = some a) (hne : a ≠ st.cursor)
    (hr : Clipboard.get_sorted_range a st.cursor = (sr, sc, er, ec))
    (hsr : sr < st.lines.length) (her : er < st.lines.length)
    (hsc : sc ≤ (st.lines.getD sr []).length)
    (hec : ec ≤ (st.lines.getD er []).length)
    (hord : sr < er ∨ (sr = er ∧ sc < ec)) :
    ((Clipboard.on_key Clipboard.KEY_PASTE
        ((SelectionDelete.on_key 8 ((Clipboard.on_key Clipboard.KEY_COPY st).2)).2)).2).lines
      = st.lines := by
  have htext : Clipboard.extract_selected_text st.lines a st.cursor
      = (if sr = er then ((st.lines.getD sr []).take ec).drop sc
         else joinWith (Char.ofNat 10)
           ([(st.lines.getD sr []).drop sc] ++ ((st.lines.take er).drop (sr + 1))
             ++ [(st.lines.getD er []).take ec])) := by
    simp only [Clipboard.extract_selected_text, hr]
  have hr' : SelectionDelete.get_sorted_range a st.cursor = (sr, sc, er, ec) := by
    rw [sd_range_eq]; exact hr
  have h1 : (Clipboard.on_key Clipboard.KEY_COPY st).2
      = { st with clipboard := Clipboard.extract_selected_text st.lines a st.cursor } := by
    rw [copy_eq st a ha hne]
  have h2 : (SelectionDelete.on_key 8
        { st with clipboard := Clipboard.extract_selected_text st.lines a st.cursor }).2
      = { st with
          clipboard := Clipboard.extract_selected_text st.lines a st.cursor,
          lines := st.lines.take sr ++
            [(st.lines.getD sr []).take sc ++ (st.lines.getD er []).drop ec] ++
            st.lines.drop (er + 1),
          cursor := (sr, sc), anchor := none } := by
    rw [delete_eq 8 _ a (by decide) (by simpa using ha) (by simpa using hne)]
    simp [hr']
  rcases hord with hlt | ⟨heq, hltc⟩
  · -- multi-line range
    have hmidno : ∀ p ∈ [(st.lines.getD sr []).drop sc]
        ++ ((st.lines.take er).drop (sr + 1)) ++ [(st.lines.getD er []).take ec],
        Char.ofNat 10 ∉ p := by
      intro p hp
      simp only [List.mem_append, List.mem_singleton] at hp
      rcases hp with (rfl | hp) | rfl
      · exact fun hm => hwf _ (getD_mem st.lines sr [] hsr) (List.drop_subset _ _ hm)
      · exact fun hm =>
          hwf p (List.take_subset _ _ (List.drop_subset _ _ hp)) hm
      · exact fun hm => hwf _ (getD_mem st.lines er [] her) (List.take_subset _ _ hm)
    have htext_m : Clipboard.extract_selected_text st.lines a st.cursor
        = joinWith (Char.ofNat 10)
            ((st.lines.getD sr []).drop sc ::
              (((st.lines.take er).drop (sr + 1)) ++ [(st.lines.getD er []).take ec])) := by
      rw [htext, if_neg (by omega)]
      simp
    have hsplit : splitOnChar (Char.ofNat 10)
        (Clipboard.extract_selected_text st.lines a st.cursor)
        = (st.lines.getD sr []).drop sc ::
            (((st.lines.take er).drop (sr + 1)) ++ [(st.lines.getD er []).take ec]) := by
      rw [htext_m]
      refine splitOnChar_joinWith _ _ (by simp) ?_
      intro p hp
      exact hmidno p (by simpa using hp)
    have hcb : Clipboard.extract_selected_text st.lines a st.cursor ≠ [] := by
      rw [htext_m]
      exact joinWith_cons_ne_nil _ _ _ (by simp)
    rw [h1, h2, paste_eq _ _ _ hsplit hcb]
    dsimp only
    exact splice_reassemble_multi st.lines sr er sc ec _ _ _ _ rfl rfl rfl hlt her hsc rfl
  · -- single-line range
    subst heq
    have htext_s : Clipboard.extract_selected_text st.lines a st.cursor
        = ((st.lines.getD sr []).take ec).drop sc := by
      rw [htext, if_pos rfl]
    have hnotext : Char.ofNat 10 ∉ Clipboard.extract_selected_text st.lines a st.cursor := by
      rw [htext_s]
      exact fun hm =>
        hwf _ (getD_mem st.lines sr [] hsr) (List.take_subset _ _ (List.drop_subset _ _ hm))
    have hcb : Clipboard.extract_selected_text st.lines a st.cursor ≠ [] := by
      rw [htext_s]
      intro hnil
      have hlen : (((st.lines.getD sr []).take ec).drop sc).length = 0 := by
        rw [hnil]; rfl
      rw [List.length_drop, List.length_take, Nat.min_eq_left hec] at hlen
      omega
    have hsplit : splitOnChar (Char.ofNat 10)
        (Clipboard.extract_selected_text st.lines a st.cursor)
        = [Clipboard.extract_selected_text st.lines a st.cursor] :=
      splitOnChar_of_not_mem _ _ hnotext
    rw [h1, h2, paste_eq _ _ [] (by rw [hsplit, htext_s]) hcb]
    dsimp only
    exact splice_reassemble_single st.lines sr sc ec _ _ rfl hsr (le_of_lt hltc) hec rfl

/-- C1: for every well-formed non-empty buffer and in-bounds anchor/cursor
`A ≠ C`, copying the selection, deleting it (cursor moves to the range
start), then pasting the extracted text at that cursor restores the buffer
exactly. -/
theorem extract_delete_paste_roundtrip (st : EdState) (a : Pos)
    (hwf : bufferWF st.lines)
    (ha : st.anchor = some a)
    (hA : posInBounds st.lines a) (hC : posInBounds st.lines st.cursor)
    (hne : a ≠ st.cursor) :
    ((Clipboard.on_key Clipboard.KEY_PASTE
        ((SelectionDelete.on_key 8 ((Clipboard.on_key Clipboard.KEY_COPY st).2)).2)).2).lines
      = st.lines := by
  rcases hA with ⟨hA1, hA2⟩
  rcases hC with ⟨hC1, hC2⟩
  rcases get_sorted_range_spec a st.cursor with ⟨hr, hord⟩ | ⟨hr, hord⟩
  · refine roundtrip_sorted st a a.1 a.2 st.cursor.1 st.cursor.2 hwf ha hne hr hA1 hC1 hA2 hC2 ?_
    rcases hord with h | ⟨h1, h2⟩
    · exact Or.inl h
    · refine Or.inr ⟨h1, lt_of_le_of_ne h2 fun h3 => hne ?_⟩
      exact Prod.ext h1 h3
  · refine roundtrip_sorted st a st.cursor.1 st.cursor.2 a.1 a.2 hwf ha hne hr hC1 hA1 hC2 hA2 ?_
    rcases hord with h | ⟨h1, h2⟩
    · exact Or.inl h
    · refine Or.inr ⟨h1, lt_of_le_of_ne h2 fun h3 => hne ?_⟩
      exact Prod.ext h1.symm h3.symm

/-- C1 witness: the round trip on buffer `["hello", "world"]` with anchor
`(0,1)` and cursor `(1,3)`. -/
theorem extract_delete_paste_roundtrip_witness :
    ((Clipboard.on_key Clipboard.KEY_PASTE
        ((SelectionDelete.on_key 8 ((Clipboard.on_key Clipboard.KEY_COPY
          ⟨["hello".data, "world".data], (1, 3), some (0, 1), []⟩).2)).2)).2).lines
      = ["hello".data, "world".data] :=
  extract_delete_paste_roundtrip ⟨["hello".data, "world".data], (1, 3), some (0, 1), []⟩
    (0, 1) (by decide) rfl (by decide) (by decide) (by decide)

namespace ExtendedKeys

/-- `sep.join(parts)` over codepoint lists (decoder names are kept as lists
of codepoints so that surrogate codepoints, which Python's `chr` accepts,
need no Lean `Char` validity proof). -/
def joinCps (sep : Nat) : List (List Nat) → List Nat
  | [] => []
  | [p] => p
  | p :: rest => p ++ sep :: joinCps sep rest

/-- Bit test on a Python arbitrary-precision integer: `bits & 2^k != 0`,
with two's-complement semantics for negative values. -/
def pyBit (bits : Int) (k : Nat) : Bool := (bits.fdiv (2 ^ k)).emod 2 = 1

/-- Codepoints of a string literal. -/
def strCps (s : String) : List Nat := s.data.map Char.toNat

/-- The two CPython builtins that `_parse_csi_u` calls.  They are external
collaborators (interpreter builtins, not code of this repository), so the
decoder is embedded as a function of an arbitrary interpretation of them:
`int s` stands for `int(s)` (`none` when it raises `ValueError`), and
`lower cp` for the codepoint sequence of `chr(cp).lower()` (Python's case
mapping may produce more than one character).  Theorems quantified over
this structure hold in particular at the real CPython functions. -/
structure PyStdlib where
  int : List Char → Option Int
  lower : Nat → List Nat

/-- Value of a non-empty all-ASCII-digit string.  Used to state the one
property of `int()` that the success theorem assumes: on such strings,
`int` returns this value (true of CPython's `int`). -/
def digitsToNat (s : List Char) : Option Nat :=
  if s = [] then none
  else if s.all Char.isDigit then
    some (s.foldl (fun acc c => acc * 10 + (c.toNat - 48)) 0)
  else none

/-- `_parse_csi_u`: recognize `[<codepoint>;<modifier>u`, decode the
modifier bits (ctrl = bit 2, alt = bit 1, shift = bit 0 of `modifier - 1`),
lowercase the codepoint, and join the modifier names and the character with
underscores (codepoint 95).  `none` on any structural mismatch.  `py`
interprets the `int(...)` and `chr(...).lower()` builtin calls; `chr`
raising exactly on codepoints outside `[0, 0x10FFFF]` is kept concrete. -/
def parse_csi_u (py : PyStdlib) (seq : List Char) : Option (List Nat) :=
  if ¬(seq.head? = some '[' ∧ seq.getLast? = some 'u' ∧ ';' ∈ seq) then none
  else
    let inner := (seq.drop 1).dropLast
    let parts := splitOnChar ';' inner
    if parts.length = 2 then
      match py.int (parts.getD 0 []), py.int (parts.getD 1 []) with
      | some codepoint, some modifier =>
        let bits := modifier - 1
        let mods :=
          (if pyBit bits 2 then [strCps "ctrl"] else [])
            ++ (if pyBit bits 1 then [strCps "alt"] else [])
            ++ (if pyBit bits 0 then [strCps "shift"] else [])
        if 0 ≤ codepoint ∧ codepoint ≤ 0x10FFFF then
          some (if mods = [] then py.lower codepoint.toNat
            else joinCps 95 (mods ++ [py.lower codepoint.toNat]))
        else none
      | _, _ => none
    else none

/-- A concrete interpretation of the two builtins, used only to evaluate
witnesses: `int` on unsigned ASCII digit strings, and the ASCII case map.
It agrees with CPython's `int` and `str.lower` on every input the witnesses
use (ASCII digit fields, ASCII letters, and fields with no digits). -/
def pyAscii : PyStdlib where
  int := fun s => (digitsToNat s).map (fun n => (n : Int))
  lower := fun cp => [if 65 ≤ cp ∧ cp ≤ 90 then cp + 32 else cp]

end ExtendedKeys

example : ExtendedKeys.parse_csi_u ExtendedKeys.pyAscii "[122;6u".data
    = some (ExtendedKeys.strCps "ctrl_shift_z") := by decide

example : ExtendedKeys.parse_csi_u ExtendedKeys.pyAscii "[97;1u".data
    = some (ExtendedKeys.strCps "a") := by decide

example : ExtendedKeys.parse_csi_u ExtendedKeys.pyAscii "[abc;1u".data = none := by
  decide

example : ExtendedKeys.parse_csi_u ExtendedKeys.pyAscii "[97;99u".data
    = some (ExtendedKeys.strCps "alt_a") := by decide

/-! ### Decoder theorems -/

theorem not_semi_of_digits (s : List Char) (h : s.all Char.isDigit) : ';' ∉ s := by
  intro hm
  have := List.all_eq_true.mp h _ hm
  exact absurd this (by decide)

/-- C5: for every interpretation of the `int`/`lower` builtins (CPython's
in particular, assuming of `int` only that it maps digit strings to their
value) and every sequence `[<digits>;<digits>u` whose codepoint value is in
the valid Unicode range, decoding succeeds; with `bits = modifier - 1`,
ctrl is set iff bit 2 of `bits` is set, alt iff bit 1, shift iff bit 0, the
character is the lowercase form of the codepoint, and the name is the
present modifiers in the order ctrl, alt, shift joined with the character
by underscores, or the bare character with no modifiers. -/
theorem parse_csi_u_success (py : ExtendedKeys.PyStdlib)
    (hint : ∀ s n, ExtendedKeys.digitsToNat s = some n → py.int s = some (n : Int))
    (cpDs mDs : List Char)
    (hcd : cpDs.all Char.isDigit) (hmd : mDs.all Char.isDigit)
    (cp m : Nat)
    (hcpv : ExtendedKeys.digitsToNat cpDs = some cp)
    (hmv : ExtendedKeys.digitsToNat mDs = some m)
    (hrange : cp ≤ 0x10FFFF) :
    ExtendedKeys.parse_csi_u py ('[' :: (cpDs ++ ';' :: (mDs ++ ['u']))) =
      some (
        let bits : Int := (m : Int) - 1
        let mods :=
          (if ExtendedKeys.pyBit bits 2 then [ExtendedKeys.strCps "ctrl"] else [])
            ++ (if ExtendedKeys.pyBit bits 1 then [ExtendedKeys.strCps "alt"] else [])
            ++ (if ExtendedKeys.pyBit bits 0 then [ExtendedKeys.strCps "shift"] else [])
        if mods = [] then py.lower cp
        else ExtendedKeys.joinCps 95 (mods ++ [py.lower cp])) := by
  have hshape : '[' :: (cpDs ++ ';' :: (mDs ++ ['u']))
      = ('[' :: (cpDs ++ ';' :: mDs)) ++ ['u'] := by simp
  have hlast : ('[' :: (cpDs ++ ';' :: (mDs ++ ['u']))).getLast? = some 'u' := by
    rw [hshape]
    exact List.getLast?_concat _
  have hmem : ';' ∈ '[' :: (cpDs ++ ';' :: (mDs ++ ['u'])) := by simp
  have hinner : (('[' :: (cpDs ++ ';' :: (mDs ++ ['u']))).drop 1).dropLast
      = cpDs ++ ';' :: mDs := by
    have h1 : (('[' :: (cpDs ++ ';' :: (mDs ++ ['u']))).drop 1)
        = (cpDs ++ ';' :: mDs) ++ ['u'] := by simp
    rw [h1, List.dropLast_concat]
  have hparts : splitOnChar ';' (cpDs ++ ';' :: mDs) = [cpDs, mDs] := by
    rw [splitOnChar_append ';' cpDs mDs (not_semi_of_digits cpDs hcd),
      splitOnChar_of_not_mem ';' mDs (not_semi_of_digits mDs hmd)]
  simp only [ExtendedKeys.parse_csi_u, hinner, hparts]
  rw [if_neg (fun hn => hn ⟨rfl, hlast, hmem⟩)]
  rw [if_pos (show ([cpDs, mDs] : List (List Char)).length = 2 from rfl)]
  have hget0 : [cpDs, mDs].getD 0 [] = cpDs := rfl
  have hget1 : [cpDs, mDs].getD 1 [] = mDs := rfl
  rw [hget0, hget1, hint cpDs cp hcpv, hint mDs m hmv]
  have hval : (0 : Int) ≤ (cp : Int) ∧ (cp : Int) ≤ 0x10FFFF :=
    ⟨Int.ofNat_nonneg cp, by exact_mod_cast hrange⟩
  simp [hval]

/-- C5 witness: at the ASCII instance of the builtins (which agrees with
CPython on these inputs), `decode("[122;6u")` yields `ctrl_shift_z` and
`decode("[97;1u")` yields `a`. -/
theorem parse_csi_u_success_witness :
    ExtendedKeys.parse_csi_u ExtendedKeys.pyAscii "[122;6u".data
      = some (ExtendedKeys.strCps "ctrl_shift_z") ∧
    ExtendedKeys.parse_csi_u ExtendedKeys.pyAscii "[97;1u".data
      = some (ExtendedKeys.strCps "a") := by
  have hint : ∀ s n, ExtendedKeys.digitsToNat s = some n →
      ExtendedKeys.pyAscii.int s = some (n : Int) := by
    intro s n h
    simp [ExtendedKeys.pyAscii, h]
  constructor
  · have h := parse_csi_u_success ExtendedKeys.pyAscii hint "122".data "6".data
      (by decide) (by decide) 122 6 (by decide) (by decide) (by decide)
    have hseq : "[122;6u".data = '[' :: ("122".data ++ ';' :: ("6".data ++ ['u'])) := by
      decide
    rw [hseq, h]
    decide
  · have h := parse_csi_u_success ExtendedKeys.pyAscii hint "97".data "1".data
      (by decide) (by decide) 97 1 (by decide) (by decide) (by decide)
    have hseq : "[97;1u".data = '[' :: ("97".data ++ ';' :: ("1".data ++ ['u'])) := by
      decide
    rw [hseq, h]
    decide

/-- C6: for every interpretation of the `int` builtin (CPython's in
particular), decoding fails (returns `none`, without raising) on every
structural mismatch: wrong delimiters (no leading `[`, no trailing `u`, or
no semicolon), wrong field count, a field on which `int` raises, or a
codepoint outside the valid Unicode range; in particular on `"[abc;1u"`,
whose codepoint field `"abc"` is one `int` rejects. -/
theorem parse_csi_u_failure (py : ExtendedKeys.PyStdlib) (seq : List Char) :
    (¬(seq.head? = some '[' ∧ seq.getLast? = some 'u' ∧ ';' ∈ seq)
      → ExtendedKeys.parse_csi_u py seq = none) ∧
    ((splitOnChar ';' ((seq.drop 1).dropLast)).length ≠ 2
      → ExtendedKeys.parse_csi_u py seq = none) ∧
    (py.int ((splitOnChar ';' ((seq.drop 1).dropLast)).getD 0 []) = none
      → ExtendedKeys.parse_csi_u py seq = none) ∧
    (py.int ((splitOnChar ';' ((seq.drop 1).dropLast)).getD 1 []) = none
      → ExtendedKeys.parse_csi_u py seq = none) ∧
    (∀ cp : Int,
      py.int ((splitOnChar ';' ((seq.drop 1).dropLast)).getD 0 []) = some cp
      → ¬(0 ≤ cp ∧ cp ≤ 0x10FFFF) → ExtendedKeys.parse_csi_u py seq = none) ∧
    (py.int "abc".data = none
      → ExtendedKeys.parse_csi_u py "[abc;1u".data = none) := by
  refine ⟨?_, ?_, ?_, ?_, ?_, ?_⟩
  · intro h
    simp only [ExtendedKeys.parse_csi_u]
    rw [if_pos h]
  · intro h
    by_cases hd : ¬(seq.head? = some '[' ∧ seq.getLast? = some 'u' ∧ ';' ∈ seq)
    · simp only [ExtendedKeys.parse_csi_u]; rw [if_pos hd]
    · simp only [ExtendedKeys.parse_csi_u]; rw [if_neg hd, if_neg h]
  · intro h
    by_cases hd : ¬(seq.head? = some '[' ∧ seq.getLast? = some 'u' ∧ ';' ∈ seq)
    · simp only [ExtendedKeys.parse_csi_u]; rw [if_pos hd]
    · by_cases hl : (splitOnChar ';' ((seq.drop 1).dropLast)).length = 2
      · simp only [ExtendedKeys.parse_csi_u]
        rw [if_neg hd, if_pos hl, h]
      · simp only [ExtendedKeys.parse_csi_u]; rw [if_neg hd, if_neg hl]
  · intro h
    by_cases hd : ¬(seq.head? = some '[' ∧ seq.getLast? = some 'u' ∧ ';' ∈ seq)
    · simp only [ExtendedKeys.parse_csi_u]; rw [if_pos hd]
    · by_cases hl : (splitOnChar ';' ((seq.drop 1).dropLast)).length = 2
      · simp only [ExtendedKeys.parse_csi_u]
        rw [if_neg hd, if_pos hl, h]
        rcases hcp : py.int
          ((splitOnChar ';' ((seq.drop 1).dropLast)).getD 0 []) with _ | cp <;> rfl
      · simp only [ExtendedKeys.parse_csi_u]; rw [if_neg hd, if_neg hl]
  · intro cp hcp hnr
    by_cases hd : ¬(seq.head? = some '[' ∧ seq.getLast? = some 'u' ∧ ';' ∈ seq)
    · simp only [ExtendedKeys.parse_csi_u]; rw [if_pos hd]
    · by_cases hl : (splitOnChar ';' ((seq.drop 1).dropLast)).length = 2
      · simp only [ExtendedKeys.parse_csi_u]
        rw [if_neg hd, if_pos hl, hcp]
        rcases hm : py.int
            ((splitOnChar ';' ((seq.drop 1).dropLast)).getD 1 []) with _ | m
        · rfl
        · simp [hnr]
      · simp only [ExtendedKeys.parse_csi_u]; rw [if_neg hd, if_neg hl]
  · intro h
    have harg : (splitOnChar ';' (("[abc;1u".data.drop 1).dropLast)).getD 0 []
        = "abc".data := by decide
    simp only [ExtendedKeys.parse_csi_u]
    rw [if_neg (by decide), if_pos (by decide), harg, h]

/-- C6 witness: at the ASCII instance of the builtins (which agrees with
CPython on `"abc"`: `int("abc")` raises), decoding `"[abc;1u"` fails. -/
theorem parse_csi_u_failure_witness :
    ExtendedKeys.parse_csi_u ExtendedKeys.pyAscii "[abc;1u".data = none :=
  (parse_csi_u_failure ExtendedKeys.pyAscii "[abc;1u".data).2.2.2.2.2 (by decide)

/-! ### Tabs extension -/

/-- One tab snapshot (the `make_tab` dictionary). -/
structure Tab where
  path : Option String
  lines : Buffer
  cursor : Pos
  scroll_y : Int
  scroll_x : Int
  dirty : Bool
  deriving Repr, DecidableEq

/-- The host editor state as the tabs extension sees it.  Modelled from the
spec: the host accessor contract (get/set path, lines, cursor, scroll
offsets, dirty flag). -/
structure TabHost where
  path : Option String
  lines : Buffer
  cursor : Pos
  scroll_y : Int
  scroll_x : Int
  dirty : Bool
  deriving Repr, DecidableEq

/-- Modelled from the spec: the external file system behind the host's
"load a file by path" operation (existence test and file contents). -/
structure World where
  fsExists : String → Bool
  fsRead : String → Buffer

/-- The module-level mutable state of the tabs extension: the `tabs` list
and the `current_tab` index. -/
structure TabsState where
  tabs : List Tab
  current : Nat
  deriving Repr, DecidableEq

namespace Tabs

def KEY_PREV_TAB : Nat := 11
def KEY_NEXT_TAB : Nat := 12
def KEY_NEW_TAB : Nat := 14

/-- `make_tab()` with every argument defaulted (as used by "new tab"). -/
def make_tab_default : Tab :=
  { path := none, lines := [[]], cursor := (0, 0),
    scroll_y := 0, scroll_x := 0, dirty := false }

/-- Modelled from the spec: host `load_file` replaces the buffer with the
file's contents, sets the path, and resets the dirty flag. -/
def load_file (w : World) (h : TabHost) (p : String) : TabHost :=
  { h with path := some p, lines := w.fsRead p, dirty := false }

/-- `save_current_tab`: snapshot the host's live state into the active tab
slot; no-op when the current index is out of range. -/
def save_current_tab (ts : TabsState) (h : TabHost) : TabsState :=
  if ts.tabs.length ≤ ts.current then ts
  else
    { ts with
      tabs := ts.tabs.set ts.current
        { path := h.path, lines := h.lines, cursor := h.cursor,
          scroll_y := h.scroll_y, scroll_x := h.scroll_x, dirty := h.dirty } }

/-- `switch_to_tab`: no-op when the index is out of bounds; otherwise set
the current index, reload from disk when the tab has a path, is clean, and
the path exists, else restore the in-memory lines/dirty/path, and in both
branches restore cursor and scroll offsets. -/
def switch_to_tab (w : World) (ts : TabsState) (h : TabHost) (index : Int) :
    TabsState × TabHost :=
  if index < 0 ∨ (ts.tabs.length : Int) ≤ index then (ts, h)
  else
    let i := index.toNat
    let tab := ts.tabs.getD i make_tab_default
    let h1 :=
      match tab.path with
      | some p =>
        if tab.dirty = false ∧ w.fsExists p = true then load_file w h p
        else { h with lines := tab.lines, dirty := tab.dirty, path := tab.path }
      | none => { h with lines := tab.lines, dirty := tab.dirty, path := tab.path }
    ({ ts with current := i },
     { h1 with cursor := tab.cursor, scroll_y := tab.scroll_y, scroll_x := tab.scroll_x })

/-- `_on_init`: wrap the host's initial buffer as the only tab. -/
def on_init (h : TabHost) : TabsState :=
  { tabs := [{ path := h.path, lines := h.lines, cursor := h.cursor,
               scroll_y := h.scroll_y, scroll_x := h.scroll_x, dirty := h.dirty }],
    current := 0 }

/-- `_on_saved`: mark the active tab clean after a successful save. -/
def on_saved (ts : TabsState) : TabsState :=
  if ts.current < ts.tabs.length then
    { ts with
      tabs := ts.tabs.set ts.current
        { ts.tabs.getD ts.current make_tab_default with dirty := false } }
  else ts

/-- `_on_key`: Ctrl+K previous tab, Ctrl+L next tab, Ctrl+N new tab; every
command persists the current tab first.  `none` models Python's implicit
`None` return for unhandled keys. -/
def on_key (w : World) (key : Nat) (ts : TabsState) (h : TabHost) :
    Option Bool × TabsState × TabHost :=
  if key = KEY_PREV_TAB then
    let ts1 := save_current_tab ts h
    (some true,
      switch_to_tab w ts1 h (((ts1.current : Int) - 1) % (ts1.tabs.length : Int)))
  else if key = KEY_NEXT_TAB then
    let ts1 := save_current_tab ts h
    (some true,
      switch_to_tab w ts1 h (((ts1.current : Int) + 1) % (ts1.tabs.length : Int)))
  else if key = KEY_NEW_TAB then
    let ts1 := save_current_tab ts h
    let ts2 := { ts1 with tabs := ts1.tabs ++ [make_tab_default] }
    (some true, switch_to_tab w ts2 h ((ts2.tabs.length : Int) - 1))
  else
    (none, ts, h)

end Tabs

/-- The TabRegistry invariant: at least one tab, current index in range. -/
def TabsInv (ts : TabsState) : Prop :=
  1 ≤ ts.tabs.length ∧ ts.current < ts.tabs.length

/-! ### Tabs: index arithmetic and frame lemmas -/

theorem int_emod_eq (a N r k : Int) (hr : 0 ≤ r) (hrN : r < N) (hk : a = k * N + r) :
    a % N = r := by
  subst hk
  have h1 : k * N + r = r + N * k := by ring
  rw [h1, Int.add_mul_emod_self_left]
  exact Int.emod_eq_of_lt hr hrN

theorem prev_index_eq (c N : Nat) (hN : 0 < N) (hc : c < N) :
    (((c : Int) - 1) % (N : Int)).toNat = (c + N - 1) % N := by
  cases c with
  | zero =>
    have he : (((0 : Nat) : Int) - 1) % (N : Int) = (N : Int) - 1 :=
      int_emod_eq _ _ _ (-1) (by omega) (by omega) (by push_cast; ring)
    rw [he]
    have h2 : (0 + N - 1) % N = N - 1 := by
      rw [Nat.zero_add]
      exact Nat.mod_eq_of_lt (by omega)
    rw [h2]
    omega
  | succ c' =>
    have he : (((c' + 1 : Nat) : Int) - 1) % (N : Int) = (c' : Int) :=
      int_emod_eq _ _ _ 0 (by omega) (by omega) (by push_cast; ring)
    rw [he]
    have h2 : (c' + 1 + N - 1) % N = c' := by
      rw [show c' + 1 + N - 1 = c' + N by omega, Nat.add_mod_right]
      exact Nat.mod_eq_of_lt (by omega)
    rw [h2]
    omega

theorem next_index_eq (c N : Nat) (hN : 0 < N) (hc : c < N) :
    (((c : Int) + 1) % (N : Int)).toNat = (c + 1) % N := by
  by_cases hq : c + 1 < N
  · have he : ((c : Int) + 1) % (N : Int) = ((c + 1 : Nat) : Int) :=
      int_emod_eq _ _ _ 0 (by omega) (by omega) (by push_cast; ring)
    rw [he, Nat.mod_eq_of_lt hq]
    omega
  · have hq2 : c + 1 = N := by omega
    have he : ((c : Int) + 1) % (N : Int) = 0 :=
      int_emod_eq _ _ _ 1 (by omega) (by omega) (by omega)
    rw [he, hq2, Nat.mod_self]
    rfl

theorem save_current_tab_frame (ts : TabsState) (h : TabHost) :
    (Tabs.save_current_tab ts h).current = ts.current ∧
    (Tabs.save_current_tab ts h).tabs.length = ts.tabs.length := by
  unfold Tabs.save_current_tab
  split
  · exact ⟨rfl, rfl⟩
  · exact ⟨rfl, by simp⟩

theorem switch_to_tab_current (w : World) (ts : TabsState) (h : TabHost) (index : Int)
    (h0 : 0 ≤ index) (h1 : index < (ts.tabs.length : Int)) :
    (Tabs.switch_to_tab w ts h index).1 = { ts with current := index.toNat } := by
  unfold Tabs.switch_to_tab
  rw [if_neg (by omega)]

theorem tabs_prev_state (w : World) (ts : TabsState) (h : TabHost)
    (hc : ts.current < ts.tabs.length) :
    (Tabs.on_key w Tabs.KEY_PREV_TAB ts h).2.1
      = { Tabs.save_current_tab ts h with
          current := (ts.current + ts.tabs.length - 1) % ts.tabs.length } := by
  have hN : 0 < ts.tabs.length := lt_of_le_of_lt (Nat.zero_le _) hc
  obtain ⟨hfc, hfl⟩ := save_current_tab_frame ts h
  unfold Tabs.on_key
  rw [if_pos rfl]
  dsimp only
  rw [switch_to_tab_current w _ h _
    (Int.emod_nonneg _ (by rw [hfl]; omega))
    (Int.emod_lt_of_pos _ (by rw [hfl]; omega))]
  congr 1
  rw [hfc, hfl]
  exact prev_index_eq ts.current ts.tabs.length hN hc

theorem tabs_next_state (w : World) (ts : TabsState) (h : TabHost)
    (hc : ts.current < ts.tabs.length) :
    (Tabs.on_key w Tabs.KEY_NEXT_TAB ts h).2.1
      = { Tabs.save_current_tab ts h with
          current := (ts.current + 1) % ts.tabs.length } := by
  have hN : 0 < ts.tabs.length := lt_of_le_of_lt (Nat.zero_le _) hc
  obtain ⟨hfc, hfl⟩ := save_current_tab_frame ts h
  unfold Tabs.on_key
  rw [if_neg (by decide), if_pos rfl]
  dsimp only
  rw [switch_to_tab_current w _ h _
    (Int.emod_nonneg _ (by rw [hfl]; omega))
    (Int.emod_lt_of_pos _ (by rw [hfl]; omega))]
  congr 1
  rw [hfc, hfl]
  exact next_index_eq ts.current ts.tabs.length hN hc

theorem tabs_prev_iter (w : World) (N : Nat) (hN : 0 < N) (k : Nat) :
    ∀ s : TabsState × TabHost, s.1.tabs.length = N → s.1.current < N →
      (((fun s : TabsState × TabHost =>
          (Tabs.on_key w Tabs.KEY_PREV_TAB s.1 s.2).2)^[k] s).1.tabs.length = N ∧
       ((fun s : TabsState × TabHost =>
          (Tabs.on_key w Tabs.KEY_PREV_TAB s.1 s.2).2)^[k] s).1.current
         = (s.1.current + k * (N - 1)) % N) := by
  induction k with
  | zero =>
    intro s hlen hcur
    refine ⟨hlen, ?_⟩
    simp [Nat.mod_eq_of_lt hcur]
  | succ k ih =>
    intro s hlen hcur
    obtain ⟨ihlen, ihcur⟩ := ih s hlen hcur
    have hcur' :
        ((fun s : TabsState × TabHost =>
          (Tabs.on_key w Tabs.KEY_PREV_TAB s.1 s.2).2)^[k] s).1.current < N := by
      rw [ihcur]; exact Nat.mod_lt _ hN
    have hbound :
        ((fun s : TabsState × TabHost =>
          (Tabs.on_key w Tabs.KEY_PREV_TAB s.1 s.2).2)^[k] s).1.current
        < ((fun s : TabsState × TabHost =>
          (Tabs.on_key w Tabs.KEY_PREV_TAB s.1 s.2).2)^[k] s).1.tabs.length := by
      rw [ihlen]; exact hcur'
    rw [Function.iterate_succ_apply']
    have hstep := tabs_prev_state w
      ((fun s : TabsState × TabHost =>
        (Tabs.on_key w Tabs.KEY_PREV_TAB s.1 s.2).2)^[k] s).1
      ((fun s : TabsState × TabHost =>
        (Tabs.on_key w Tabs.KEY_PREV_TAB s.1 s.2).2)^[k] s).2 hbound
    obtain ⟨hfc, hfl⟩ := save_current_tab_frame
      ((fun s : TabsState × TabHost =>
        (Tabs.on_key w Tabs.KEY_PREV_TAB s.1 s.2).2)^[k] s).1
      ((fun s : TabsState × TabHost =>
        (Tabs.on_key w Tabs.KEY_PREV_TAB s.1 s.2).2)^[k] s).2
    constructor
    · show (Tabs.on_key w Tabs.KEY_PREV_TAB _ _).2.1.tabs.length = N
      rw [hstep]
      show (Tabs.save_current_tab _ _).tabs.length = N
      rw [hfl, ihlen]
    · show (Tabs.on_key w Tabs.KEY_PREV_TAB _ _).2.1.current
        = (s.1.current + (k + 1) * (N - 1)) % N
      rw [hstep]
      show (((fun s : TabsState × TabHost =>
          (Tabs.on_key w Tabs.KEY_PREV_TAB s.1 s.2).2)^[k] s).1.current
            + ((fun s : TabsState × TabHost =>
          (Tabs.on_key w Tabs.KEY_PREV_TAB s.1 s.2).2)^[k] s).1.tabs.length - 1)
          % ((fun s : TabsState × TabHost =>
          (Tabs.on_key w Tabs.KEY_PREV_TAB s.1 s.2).2)^[k] s).1.tabs.length
        = (s.1.current + (k + 1) * (N - 1)) % N
      rw [ihlen, ihcur]
      calc ((s.1.current + k * (N - 1)) % N + N - 1) % N
          = ((s.1.current + k * (N - 1)) % N + (N - 1)) % N := by
            rw [Nat.add_sub_assoc (by omega)]
        _ = (s.1.current + k * (N - 1) + (N - 1)) % N := Nat.mod_add_mod _ _ _
        _ = (s.1.current + (k + 1) * (N - 1)) % N := by ring_nf

/-- C7: with N tabs and current index i < N, "previous" applied N times
returns the active index to i; "next" then "previous" and "previous" then
"next" are the identity on the active index; and each command is
persistCurrent followed by activating index (i-1) mod N, resp. (i+1) mod N. -/
theorem tab_wraparound (w : World) (ts : TabsState) (h : TabHost)
    (hc : ts.current < ts.tabs.length) :
    ((fun s : TabsState × TabHost =>
        (Tabs.on_key w Tabs.KEY_PREV_TAB s.1 s.2).2)^[ts.tabs.length] (ts, h)).1.current
      = ts.current ∧
    (Tabs.on_key w Tabs.KEY_PREV_TAB
        (Tabs.on_key w Tabs.KEY_NEXT_TAB ts h).2.1
        (Tabs.on_key w Tabs.KEY_NEXT_TAB ts h).2.2).2.1.current = ts.current ∧
    (Tabs.on_key w Tabs.KEY_NEXT_TAB
        (Tabs.on_key w Tabs.KEY_PREV_TAB ts h).2.1
        (Tabs.on_key w Tabs.KEY_PREV_TAB ts h).2.2).2.1.current = ts.current ∧
    Tabs.on_key w Tabs.KEY_PREV_TAB ts h
      = (some true, Tabs.switch_to_tab w (Tabs.save_current_tab ts h) h
          ((((Tabs.save_current_tab ts h).current : Int) - 1)
            % ((Tabs.save_current_tab ts h).tabs.length : Int))) ∧
    Tabs.on_key w Tabs.KEY_NEXT_TAB ts h
      = (some true, Tabs.switch_to_tab w (Tabs.save_current_tab ts h) h
          ((((Tabs.save_current_tab ts h).current : Int) + 1)
            % ((Tabs.save_current_tab ts h).tabs.length : Int))) := by
  have hN : 0 < ts.tabs.length := lt_of_le_of_lt (Nat.zero_le _) hc
  obtain ⟨hfc, hfl⟩ := save_current_tab_frame ts h
  refine ⟨?_, ?_, ?_, rfl, rfl⟩
  · obtain ⟨_, hcur⟩ := tabs_prev_iter w ts.tabs.length hN ts.tabs.length (ts, h) rfl hc
    rw [hcur,
      show ts.current + ts.tabs.length * (ts.tabs.length - 1)
        = ts.current + (ts.tabs.length - 1) * ts.tabs.length by ring,
      Nat.add_mul_mod_self_right]
    exact Nat.mod_eq_of_lt hc
  · rw [tabs_next_state w ts h hc]
    have hb : ({ Tabs.save_current_tab ts h with
          current := (ts.current + 1) % ts.tabs.length } : TabsState).current
        < ({ Tabs.save_current_tab ts h with
          current := (ts.current + 1) % ts.tabs.length } : TabsState).tabs.length := by
      show (ts.current + 1) % ts.tabs.length < (Tabs.save_current_tab ts h).tabs.length
      rw [hfl]
      exact Nat.mod_lt _ hN
    rw [tabs_prev_state w _ _ hb]
    show ((ts.current + 1) % ts.tabs.length
        + (Tabs.save_current_tab ts h).tabs.length - 1)
        % (Tabs.save_current_tab ts h).tabs.length = ts.current
    rw [hfl, Nat.add_sub_assoc (by omega), Nat.mod_add_mod,
      show ts.current + 1 + (ts.tabs.length - 1) = ts.current + ts.tabs.length by omega,
      Nat.add_mod_right]
    exact Nat.mod_eq_of_lt hc
  · rw [tabs_prev_state w ts h hc]
    have hb : ({ Tabs.save_current_tab ts h with
          current := (ts.current + ts.tabs.length - 1) % ts.tabs.length } : TabsState).current
        < ({ Tabs.save_current_tab ts h with
          current := (ts.current + ts.tabs.length - 1) % ts.tabs.length } : TabsState).tabs.length := by
      show (ts.current + ts.tabs.length - 1) % ts.tabs.length
        < (Tabs.save_current_tab ts h).tabs.length
      rw [hfl]
      exact Nat.mod_lt _ hN
    rw [tabs_next_state w _ _ hb]
    show ((ts.current + ts.tabs.length - 1) % ts.tabs.length + 1)
        % (Tabs.save_current_tab ts h).tabs.length = ts.current
    rw [hfl, Nat.mod_add_mod,
      show ts.current + ts.tabs.length - 1 + 1 = ts.current + ts.tabs.length by omega,
      Nat.add_mod_right]
    exact Nat.mod_eq_of_lt hc

def c7world : World := { fsExists := fun _ => false, fsRead := fun _ => [] }

def c7host : TabHost :=
  { path := none, lines := [[]], cursor := (0, 0),
    scroll_y := 0, scroll_x := 0, dirty := false }

def c7ts : TabsState :=
  { tabs := [Tabs.make_tab_default, Tabs.make_tab_default], current := 0 }

/-- C7 witness: two tabs, current 0: two "previous" commands return to 0,
and "next" followed by "previous" stays at 0. -/
theorem tab_wraparound_witness :
    ((fun s : TabsState × TabHost =>
        (Tabs.on_key c7world Tabs.KEY_PREV_TAB s.1 s.2).2)^[2] (c7ts, c7host)).1.current
      = 0 ∧
    (Tabs.on_key c7world Tabs.KEY_PREV_TAB
        (Tabs.on_key c7world Tabs.KEY_NEXT_TAB c7ts c7host).2.1
        (Tabs.on_key c7world Tabs.KEY_NEXT_TAB c7ts c7host).2.2).2.1.current = 0 := by
  have h := tab_wraparound c7world c7ts c7host (by decide)
  exact ⟨h.1, h.2.1⟩

/-! ### Tabs: invariant preservation -/

theorem switch_to_tab_inv (w : World) (ts : TabsState) (h : TabHost) (index : Int)
    (hinv : TabsInv ts) : TabsInv ((Tabs.switch_to_tab w ts h index).1) := by
  obtain ⟨h1, h2⟩ := hinv
  unfold Tabs.switch_to_tab
  split
  · exact ⟨h1, h2⟩
  · next hg =>
    refine ⟨?_, ?_⟩
    · show 1 ≤ ts.tabs.length
      exact h1
    · show index.toNat < ts.tabs.length
      omega

theorem save_current_tab_inv (ts : TabsState) (h : TabHost) (hinv : TabsInv ts) :
    TabsInv (Tabs.save_current_tab ts h) := by
  obtain ⟨h1, h2⟩ := hinv
  obtain ⟨hc, hl⟩ := save_current_tab_frame ts h
  exact ⟨by omega, by omega⟩

/-- C9: after init, and through every tab-manager operation (any key event,
persistCurrent, activate at any index, save-completed), the registry holds
at least one tab and the current index stays in range. -/
theorem tabs_registry_invariant (w : World) (h : TabHost) (ts : TabsState)
    (key : Nat) (index : Int) (hinv : TabsInv ts) :
    TabsInv (Tabs.on_init h) ∧
    TabsInv ((Tabs.on_key w key ts h).2.1) ∧
    TabsInv (Tabs.save_current_tab ts h) ∧
    TabsInv ((Tabs.switch_to_tab w ts h index).1) ∧
    TabsInv (Tabs.on_saved ts) := by
  obtain ⟨h1, h2⟩ := hinv
  refine ⟨⟨by simp [Tabs.on_init], by simp [Tabs.on_init]⟩, ?_,
    save_current_tab_inv ts h ⟨h1, h2⟩, switch_to_tab_inv w ts h index ⟨h1, h2⟩, ?_⟩
  · by_cases hk1 : key = Tabs.KEY_PREV_TAB
    · subst hk1
      unfold Tabs.on_key
      rw [if_pos rfl]
      dsimp only
      exact switch_to_tab_inv w _ h _ (save_current_tab_inv ts h ⟨h1, h2⟩)
    · by_cases hk2 : key = Tabs.KEY_NEXT_TAB
      · subst hk2
        unfold Tabs.on_key
        rw [if_neg (by decide), if_pos rfl]
        dsimp only
        exact switch_to_tab_inv w _ h _ (save_current_tab_inv ts h ⟨h1, h2⟩)
      · by_cases hk3 : key = Tabs.KEY_NEW_TAB
        · subst hk3
          unfold Tabs.on_key
          rw [if_neg (by decide), if_neg (by decide), if_pos rfl]
          dsimp only
          refine switch_to_tab_inv w _ h _ ?_
          obtain ⟨hc, hl⟩ := save_current_tab_frame ts h
          refine ⟨?_, ?_⟩
          · show 1 ≤ ((Tabs.save_current_tab ts h).tabs ++ [Tabs.make_tab_default]).length
            rw [List.length_append]
            omega
          · show (Tabs.save_current_tab ts h).current
              < ((Tabs.save_current_tab ts h).tabs ++ [Tabs.make_tab_default]).length
            rw [List.length_append, hl, hc]
            simp only [List.length_singleton]
            omega
        · unfold Tabs.on_key
          rw [if_neg hk1, if_neg hk2, if_neg hk3]
          exact ⟨h1, h2⟩
  · unfold Tabs.on_saved
    rw [if_pos h2]
    refine ⟨?_, ?_⟩
    · show 1 ≤ (ts.tabs.set ts.current
        { ts.tabs.getD ts.current Tabs.make_tab_default with dirty := false }).length
      rw [List.length_set]
      exact h1
    · show ts.current < (ts.tabs.set ts.current
        { ts.tabs.getD ts.current Tabs.make_tab_default with dirty := false }).length
      rw [List.length_set]
      exact h2

def c9world : World := { fsExists := fun _ => true, fsRead := fun _ => [[]] }

def c9host : TabHost :=
  { path := none, lines := [[]], cursor := (0, 0),
    scroll_y := 0, scroll_x := 0, dirty := false }

def c9ts : TabsState := { tabs := [Tabs.make_tab_default], current := 0 }

/-- C9 witness: the invariant holds at a concrete one-tab state across init,
a previous-tab key press, persist, activate 0, and save-completed. -/
theorem tabs_registry_invariant_witness :
    TabsInv (Tabs.on_init c9host) ∧
    TabsInv ((Tabs.on_key c9world 11 c9ts c9host).2.1) ∧
    TabsInv (Tabs.save_current_tab c9ts c9host) ∧
    TabsInv ((Tabs.switch_to_tab c9world c9ts c9host 0).1) ∧
    TabsInv (Tabs.on_saved c9ts) :=
  tabs_registry_invariant c9world c9host c9ts 11 0 ⟨by decide, by decide⟩

/-! ### C4: tab activation branch condition -/

/-- C4 (amended): for an in-bounds index, activate reloads the snapshot's
file from disk if and only if the snapshot has a known file path, is not
dirty, AND the path exists on disk; otherwise it replaces the host's buffer
with the snapshot's in-memory lines and dirty flag and sets its path; in
both branches cursor and scroll offsets are restored from the snapshot and
the current index is updated; for an out-of-bounds index activate is a
no-op. -/
theorem switch_to_tab_spec (w : World) (ts : TabsState) (h : TabHost)
    (index : Int) (tab : Tab)
    (htab : tab = ts.tabs.getD index.toNat Tabs.make_tab_default) :
    (0 ≤ index ∧ index < (ts.tabs.length : Int) →
      ((∀ p, tab.path = some p → tab.dirty = false → w.fsExists p = true →
        Tabs.switch_to_tab w ts h index =
          ({ ts with current := index.toNat },
           { path := some p, lines := w.fsRead p, cursor := tab.cursor,
             scroll_y := tab.scroll_y, scroll_x := tab.scroll_x, dirty := false })) ∧
       (¬(∃ p, tab.path = some p ∧ tab.dirty = false ∧ w.fsExists p = true) →
        Tabs.switch_to_tab w ts h index =
          ({ ts with current := index.toNat },
           { path := tab.path, lines := tab.lines, cursor := tab.cursor,
             scroll_y := tab.scroll_y, scroll_x := tab.scroll_x,
             dirty := tab.dirty })))) ∧
    (¬(0 ≤ index ∧ index < (ts.tabs.length : Int)) →
      Tabs.switch_to_tab w ts h index = (ts, h)) := by
  constructor
  · intro hin
    have hguard : ¬(index < 0 ∨ (ts.tabs.length : Int) ≤ index) := by omega
    constructor
    · intro p hp hd hex
      unfold Tabs.switch_to_tab
      rw [if_neg hguard]
      dsimp only
      rw [← htab]
      simp only [hp, hd, hex, and_self, if_true, Tabs.load_file]
    · intro hnex
      unfold Tabs.switch_to_tab
      rw [if_neg hguard]
      dsimp only
      rw [← htab]
      cases hpath : tab.path with
      | none => simp only [hpath]
      | some p =>
        have hcond : ¬(tab.dirty = false ∧ w.fsExists p = true) :=
          fun hc => hnex ⟨p, hpath, hc.1, hc.2⟩
        simp only [hpath, if_neg hcond]
  · intro hout
    unfold Tabs.switch_to_tab
    rw [if_pos (by omega)]

def c4world : World := { fsExists := fun _ => false, fsRead := fun _ => ["disk".data] }

def c4world2 : World := { fsExists := fun _ => true, fsRead := fun _ => ["disk".data] }

def c4tab : Tab :=
  { path := some "f", lines := ["mem".data], cursor := (0, 0),
    scroll_y := 0, scroll_x := 0, dirty := false }

def c4ts : TabsState := { tabs := [c4tab], current := 0 }

def c4host : TabHost :=
  { path := none, lines := [[]], cursor := (1, 1),
    scroll_y := 2, scroll_x := 3, dirty := true }

/-- C4 counterexample: tab 0 has a known path and is not dirty, yet
activate does NOT reload from disk (the path does not exist): the resulting
buffer is the snapshot's in-memory lines, not the disk contents, so the
claimed "iff path known and not dirty" branch condition is false. -/
theorem switch_to_tab_counterexample :
    c4tab.path = some "f" ∧ c4tab.dirty = false ∧
    c4ts.tabs.getD 0 Tabs.make_tab_default = c4tab ∧
    (Tabs.switch_to_tab c4world c4ts c4host 0).2.lines = ["mem".data] ∧
    (Tabs.switch_to_tab c4world c4ts c4host 0).2.lines ≠ c4world.fsRead "f" := by
  refine ⟨rfl, rfl, rfl, ?_, ?_⟩ <;> decide

/-- C4 witness: when the path does exist, a clean tab with a known path is
reloaded from disk, with cursor and scroll restored and dirty reset. -/
theorem switch_to_tab_spec_witness :
    Tabs.switch_to_tab c4world2 c4ts c4host 0
      = ({ c4ts with current := 0 },
         { path := some "f", lines := ["disk".data], cursor := (0, 0),
           scroll_y := 0, scroll_x := 0, dirty := false }) := by
  have h := ((switch_to_tab_spec c4world2 c4ts c4host 0 c4tab rfl).1
    (by decide)).1 "f" rfl rfl rfl
  rw [h]
  decide
